import Mathlib

/-
Shallow embedding of the ATS Richards process-kernel fragment:
the residual evaluator `Richards::fun`, the preconditioner update
`Richards::update_precon`, the error-norm estimator `Richards::enorm`
(all from the Richards source file), and the constant equation of state
`EOSConstant` (eos_constant.hh).

Reals are modelled by the rationals ℚ (exact arithmetic); composite
vectors (cell and face degrees of freedom) are pairs of lists; the
time-tagged state snapshots carry the fields the fragment reads.
External collaborators (the field-evaluator dependency graph, the
mesh/discretization operator assembly) are modelled as function
parameters carried by the `Richards` record, per the spec's interface
section. A fatal `ASSERT` is modelled by returning `none`.
-/

namespace ATS

/-- A composite vector: per-cell and per-face degrees of freedom
(`CompositeVector` with components "cell" and "face"). -/
structure CompositeVector where
  cells : List ℚ
  faces : List ℚ
deriving DecidableEq

/-- A time-tagged state snapshot holding the fields this fragment reads:
the primary variable (pressure, field `key_`), the derived water content,
and the water-content derivative field `dwater_content_d<key>`. -/
structure StateSnapshot where
  time : ℚ
  pressure : CompositeVector
  water_content : List ℚ
  dwc_dp : List ℚ
deriving DecidableEq

/-- The Richards process kernel state: the two state snapshots, the
tolerance state, the preconditioner's cell-diagonal accumulation and
right-hand-side correction vectors, and the external collaborators
(field evaluators for water content and its derivative, and the discrete
diffusion operator) modelled as functions. -/
structure Richards where
  S_inter : StateSnapshot
  S_next : StateSnapshot
  atol_ : ℚ
  rtol_ : ℚ
  atol0_ : ℚ
  rtol0_ : ℚ
  continuation_to_ss_ : Bool
  Acc_cells : List ℚ
  Fc_cells : List ℚ
  wcEval : List ℚ → List ℚ
  dwcEval : List ℚ → List ℚ
  diffusionOp : StateSnapshot → CompositeVector
  niter_ : ℕ

/-- Pointer-copy of the solution vector into a state snapshot
(`PKDefaultBase::solution_to_state`): the primary variable becomes `u`. -/
def solution_to_state (u : CompositeVector) (S : StateSnapshot) : StateSnapshot :=
  { S with pressure := u }

/-- Modelled from the spec: the lazy field-evaluator update
`GetFieldEvaluator("water_content")->HasFieldChanged(...)` recomputes the
derived water-content field from the current primary variable through the
external constitutive chain `wcEval`. -/
def updateWaterContent (wcEval : List ℚ → List ℚ) (S : StateSnapshot) : StateSnapshot :=
  { S with water_content := wcEval S.pressure.cells }

/-- Modelled from the spec: the lazy field-evaluator update
`HasFieldDerivativeChanged(...)` recomputes the water-content derivative
field `dwater_content_d<key>` from the current primary variable through the
external constitutive chain `dwcEval`; the derivative is owned by the
constitutive-model layer, not recomputed locally. -/
def updateWCDeriv (dwcEval : List ℚ → List ℚ) (S : StateSnapshot) : StateSnapshot :=
  { S with dwc_dp := dwcEval S.pressure.cells }

/-- A zero vector of the same shape as `g` (`res->PutScalar(0.0)` keeps the
shape of the residual vector and zeroes every entry). -/
def zeroedLike (g : CompositeVector) : CompositeVector :=
  { cells := List.replicate g.cells.length 0, faces := List.replicate g.faces.length 0 }

/-- Modelled from the spec: `ApplyDiffusion_` adds the implicit diffusive
flux term, a discrete divergence of the rel-perm-weighted,
gravity-augmented Darcy flux evaluated at the next state; the discrete
operator itself lives in the external mesh/discretization library and is
modelled as the function `diffOp` of the next state. -/
def applyDiffusion (diffOp : StateSnapshot → CompositeVector) (S : StateSnapshot)
    (res : CompositeVector) : CompositeVector :=
  { cells := List.zipWith (· + ·) res.cells (diffOp S).cells,
    faces := List.zipWith (· + ·) res.faces (diffOp S).faces }

/-- Modelled from the spec: `AddAccumulation_` adds the accumulation term,
the discrete time derivative of water content, `(wc_new - wc_old)/h` per
cell, to the cell entries of the residual. -/
def addAccumulation (h : ℚ) (wcNew wcOld : List ℚ) (res : CompositeVector) : CompositeVector :=
  { res with cells :=
      List.zipWith (· + ·) res.cells (List.zipWith (fun wn wo => (wn - wo) / h) wcNew wcOld) }

/-- The nonlinear residual `Richards::fun(t_old, t_new, u_old, u_new, g)`.
It first `ASSERT`s that the two snapshots' time stamps match `t_old` and
`t_new` (fatal, modelled as `none`); note that no assertion checks the sign
of `h = t_new - t_old`. It then propagates `u_new` into the next snapshot,
recomputes boundary data (external, unmodelled), zeroes the residual, adds
the implicit diffusion term, and adds the accumulation term. -/
def Richards.fun' (R : Richards) (t_old t_new : ℚ) (u_old u_new : CompositeVector)
    (g : CompositeVector) : Option (Richards × CompositeVector) :=
  if R.S_inter.time = t_old ∧ R.S_next.time = t_new then
    some (let h := t_new - t_old
          let Snext := updateWaterContent R.wcEval (solution_to_state u_new R.S_next)
          let res := addAccumulation h Snext.water_content R.S_inter.water_content
            (applyDiffusion R.diffusionOp Snext (zeroedLike g))
          ({ R with S_next := Snext, niter_ := R.niter_ + 1 }, res))
  else none

/-- The accumulation loop of `Richards::update_precon`: for each cell `c`
below the size of the derivative field, `Acc_cells[c] += dwc_dp[c]/h` and
`Fc_cells[c] += pres[c] * dwc_dp[c] / h`; entries beyond the loop bound are
untouched. Arguments: the derivative field, the pressure field, the
accumulation diagonal and the right-hand-side correction. -/
def accumLoop (h : ℚ) : List ℚ → List ℚ → List ℚ → List ℚ → List ℚ × List ℚ
  | d :: ds, p :: ps, a :: as, f :: fs =>
      ((a + d / h) :: (accumLoop h ds ps as fs).1,
       (f + p * d / h) :: (accumLoop h ds ps as fs).2)
  | _, _, as, fs => (as, fs)

/-- The preconditioner rebuild `Richards::update_precon(t, up, h)`. It
`ASSERT`s that the next snapshot's time stamp equals `t` (fatal, modelled
as `none`), propagates `up` into the next snapshot, rebuilds the external
stiffness/flux operators (which, per the spec, never reset `Acc_cells` or
`Fc_cells` except on structural updates — modelled from the spec since the
operator implementation is external), refreshes the water-content
derivative through the field-evaluator system, and additively applies the
accumulation contribution to `Acc_cells` and `Fc_cells`. -/
def Richards.update_precon (R : Richards) (t : ℚ) (up : CompositeVector) (h : ℚ) :
    Option Richards :=
  if R.S_next.time = t then
    some (let Snext := updateWCDeriv R.dwcEval (solution_to_state up R.S_next)
          let AF := accumLoop h Snext.dwc_dp Snext.pressure.cells R.Acc_cells R.Fc_cells
          { R with S_next := Snext, Acc_cells := AF.1, Fc_cells := AF.2 })
  else none

/-- The effective absolute tolerance used by `Richards::enorm`: during a
continuation-to-steady-state run it is recomputed each call as
`atol0_ + 1e5 * atol0_ / (1 + S_next->time())`; otherwise the stored
`atol_` is used unchanged. -/
def enormAtol (R : Richards) : ℚ :=
  if R.continuation_to_ss_ then R.atol0_ + 100000 * R.atol0_ / (1 + R.S_next.time) else R.atol_

/-- The effective relative tolerance used by `Richards::enorm`, recomputed
the same way as the absolute one during continuation. -/
def enormRtol (R : Richards) : ℚ :=
  if R.continuation_to_ss_ then R.rtol0_ + 100000 * R.rtol0_ / (1 + R.S_next.time) else R.rtol_

/-- The error norm `Richards::enorm(u, du)`. Tolerances are first relaxed
if continuation is active (mutating `atol_`, `rtol_`); the water content is
refreshed at the next state; `h` is the difference of the two snapshots'
times (not a parameter); the cell norm is the running maximum, from 0, of
`|h * du_cell| / (atol + rtol * |wc_cell|)`; the face norm is 0 (the face
loop is commented out in the source); the result is the maximum of the two
(the MPI all-reduce maximum is the identity on a single process). Returns
the mutated kernel state together with the scalar. `u` is not read. -/
def Richards.enorm (R : Richards) (u du : CompositeVector) : Richards × ℚ :=
  let atol := enormAtol R
  let rtol := enormRtol R
  let Snext := updateWaterContent R.wcEval R.S_next
  let h := Snext.time - R.S_inter.time
  let enorm_cell :=
    (List.zipWith (fun r w => |h * r| / (atol + rtol * |w|)) du.cells Snext.water_content).foldl
      max 0
  let enorm_face : ℚ := 0
  ({ R with atol_ := atol, rtol_ := rtol, S_next := Snext }, max enorm_face enorm_cell)

/-- The error norm as the spec words it: for every cell compute
`|h * du_cell| / (atol + rtol * |wc_cell|)` and take the maximum
(infinity norm) over cells, with no face contribution. -/
def specCellwiseErrorNorm (h atol rtol : ℚ) (du wc : List ℚ) : ℚ :=
  (List.zipWith (fun r w => |h * r| / (atol + rtol * |w|)) du wc).foldl max 0

/-- The constant equation of state `EOSConstant`: a molar mass `M_` and a
mass density `rho_`, set once from the parameter list. -/
structure EOSConstant where
  M_ : ℚ
  rho_ : ℚ
deriving DecidableEq

/-- `EOSConstant::Density(T, p) = rho_ / M_`, independent of `T` and `p`. -/
def EOSConstant.Density (e : EOSConstant) (T p : ℚ) : ℚ := e.rho_ / e.M_

/-- `EOSConstant::DDensityDT(T, p) = 0`. -/
def EOSConstant.DDensityDT (e : EOSConstant) (T p : ℚ) : ℚ := 0

/-- `EOSConstant::DDensityDp(T, p) = 0`. -/
def EOSConstant.DDensityDp (e : EOSConstant) (T p : ℚ) : ℚ := 0

/-! Helper lemmas about the running maximum and the accumulation loop. -/

/-- The running maximum never drops below its starting value. -/
lemma le_foldl_max (l : List ℚ) : ∀ a : ℚ, a ≤ l.foldl max a := by
  induction l with
  | nil => intro a; exact le_refl a
  | cons x xs ih => intro a; exact le_trans (le_max_left a x) (ih (max a x))

/-- The running maximum is bounded by any bound on the start and the
elements. -/
lemma foldl_max_le (l : List ℚ) : ∀ a b : ℚ, a ≤ b → (∀ x ∈ l, x ≤ b) → l.foldl max a ≤ b := by
  induction l with
  | nil => intro a b hab _; exact hab
  | cons x xs ih =>
      intro a b hab hx
      exact ih (max a x) b (max_le hab (hx x (List.mem_cons_self x xs)))
        (fun y hy => hx y (List.mem_cons_of_mem x hy))

/-- The running maximum is monotone in the start and, pointwise, in the
elements. -/
lemma foldl_max_mono {l l' : List ℚ} (h : List.Forall₂ (· ≤ ·) l l') :
    ∀ a b : ℚ, a ≤ b → l.foldl max a ≤ l'.foldl max b := by
  induction h with
  | nil => intro a b hab; exact hab
  | cons hxy _ ih => intro a b hab; exact ih _ _ (max_le_max hab hxy)

/-- Every element of a zipped list comes from a pair of elements of the
two inputs. -/
lemma exists_of_mem_zipWith {α β γ : Type} (f : α → β → γ) :
    ∀ (l : List α) (l' : List β) (y : γ), y ∈ List.zipWith f l l' →
      ∃ a, a ∈ l ∧ ∃ b, b ∈ l' ∧ y = f a b := by
  intro l
  induction l with
  | nil => intro l' y hy; simp [List.zipWith] at hy
  | cons x xs ih =>
      intro l' y hy
      cases l' with
      | nil => simp [List.zipWith] at hy
      | cons w ws =>
          simp only [List.zipWith, List.mem_cons] at hy
          rcases hy with hy | hy
          · exact ⟨x, List.mem_cons_self x xs, w, List.mem_cons_self w ws, hy⟩
          · rcases ih ws y hy with ⟨a, ha, b, hb, hab⟩
            exact ⟨a, List.mem_cons_of_mem x ha, b, List.mem_cons_of_mem w hb, hab⟩

/-- Monotonicity of the per-cell error terms: with nonnegative tolerances,
enlarging every `|du_cell|` enlarges every term of the zipped list. -/
lemma forall2_enorm_terms (h atol rtol : ℚ) (hA : 0 ≤ atol) (hR : 0 ≤ rtol) :
    ∀ (du du' wc : List ℚ), du.length = du'.length →
      (∀ c, c < du.length → |du.getD c 0| ≤ |du'.getD c 0|) →
      List.Forall₂ (· ≤ ·)
        (List.zipWith (fun r w => |h * r| / (atol + rtol * |w|)) du wc)
        (List.zipWith (fun r w => |h * r| / (atol + rtol * |w|)) du' wc) := by
  intro du
  induction du with
  | nil =>
      intro du' wc hlen _
      have : du' = [] := List.eq_nil_of_length_eq_zero hlen.symm
      subst this
      simp [List.zipWith]
  | cons x xs ih =>
      intro du' wc hlen hmono
      cases du' with
      | nil => simp at hlen
      | cons y ys =>
          cases wc with
          | nil => simp [List.zipWith]
          | cons w ws =>
              refine List.Forall₂.cons ?_ ?_
              · have hxy : |x| ≤ |y| := by
                  have := hmono 0 (by simp)
                  simpa using this
                have hd : 0 ≤ atol + rtol * |w| :=
                  add_nonneg hA (mul_nonneg hR (abs_nonneg w))
                show |h * x| / (atol + rtol * |w|) ≤ |h * y| / (atol + rtol * |w|)
                rw [abs_mul, abs_mul, div_eq_mul_inv, div_eq_mul_inv]
                exact mul_le_mul_of_nonneg_right
                  (mul_le_mul_of_nonneg_left hxy (abs_nonneg h))
                  (inv_nonneg.mpr hd)
              · refine ih ys ws (by simpa using hlen) ?_
                intro c hc
                have := hmono (c + 1) (by simpa using Nat.succ_lt_succ hc)
                simpa using this

/-- The accumulation loop preserves the length of the diagonal vector. -/
lemma accumLoop_fst_length (h : ℚ) :
    ∀ (ds ps as fs : List ℚ), ((accumLoop h ds ps as fs).1).length = as.length := by
  intro ds
  induction ds with
  | nil => intro ps as fs; simp [accumLoop]
  | cons d ds ih =>
      intro ps as fs
      cases ps with
      | nil => simp [accumLoop]
      | cons p ps =>
          cases as with
          | nil => simp [accumLoop]
          | cons a as =>
              cases fs with
              | nil => simp [accumLoop]
              | cons f fs => simp [accumLoop, ih]

/-- The accumulation loop preserves the length of the right-hand-side
correction vector. -/
lemma accumLoop_snd_length (h : ℚ) :
    ∀ (ds ps as fs : List ℚ), ((accumLoop h ds ps as fs).2).length = fs.length := by
  intro ds
  induction ds with
  | nil => intro ps as fs; simp [accumLoop]
  | cons d ds ih =>
      intro ps as fs
      cases ps with
      | nil => simp [accumLoop]
      | cons p ps =>
          cases as with
          | nil => simp [accumLoop]
          | cons a as =>
              cases fs with
              | nil => simp [accumLoop]
              | cons f fs => simp [accumLoop, ih]

/-- Within the loop bound, the accumulation loop adds `d/h` to the
diagonal entry. -/
lemma accumLoop_fst_getD (h : ℚ) :
    ∀ (ds ps as fs : List ℚ) (c : ℕ), c < ds.length → c < ps.length → c < as.length →
      c < fs.length →
      ((accumLoop h ds ps as fs).1).getD c 0 = as.getD c 0 + ds.getD c 0 / h := by
  intro ds
  induction ds with
  | nil => intro ps as fs c hc; simp at hc
  | cons d ds ih =>
      intro ps as fs c hd hp ha hf
      cases ps with
      | nil => simp at hp
      | cons p ps =>
          cases as with
          | nil => simp at ha
          | cons a as =>
              cases fs with
              | nil => simp at hf
              | cons f fs =>
                  cases c with
                  | zero => simp [accumLoop]
                  | succ c =>
                      simp only [accumLoop, List.getD_cons_succ]
                      exact ih ps as fs c (by simpa using hd) (by simpa using hp)
                        (by simpa using ha) (by simpa using hf)

/-- Within the loop bound, the accumulation loop adds `p * d / h` to the
right-hand-side correction entry. -/
lemma accumLoop_snd_getD (h : ℚ) :
    ∀ (ds ps as fs : List ℚ) (c : ℕ), c < ds.length → c < ps.length → c < as.length →
      c < fs.length →
      ((accumLoop h ds ps as fs).2).getD c 0 =
        fs.getD c 0 + ps.getD c 0 * ds.getD c 0 / h := by
  intro ds
  induction ds with
  | nil => intro ps as fs c hc; simp at hc
  | cons d ds ih =>
      intro ps as fs c hd hp ha hf
      cases ps with
      | nil => simp at hp
      | cons p ps =>
          cases as with
          | nil => simp at ha
          | cons a as =>
              cases fs with
              | nil => simp at hf
              | cons f fs =>
                  cases c with
                  | zero => simp [accumLoop]
                  | succ c =>
                      simp only [accumLoop, List.getD_cons_succ]
                      exact ih ps as fs c (by simpa using hd) (by simpa using hp)
                        (by simpa using ha) (by simpa using hf)

/-! Concrete instances used by scenarios, counterexamples and witnesses. -/

/-- A single-cell next snapshot at time 1 with pressure 3. -/
def snap1 : StateSnapshot :=
  { time := 1, pressure := ⟨[3], []⟩, water_content := [10], dwc_dp := [2] }

/-- A single-cell kernel state: times 0 and 1 (h = 1), tolerances
atol = 1e-5 and rtol = 1e-4, continuation off, water content 10,
water-content derivative 2, zero preconditioner vectors. -/
def Rex : Richards :=
  { S_inter := { time := 0, pressure := ⟨[0], []⟩, water_content := [9], dwc_dp := [0] },
    S_next := snap1,
    atol_ := 1/100000, rtol_ := 1/10000, atol0_ := 1/100000, rtol0_ := 1/10000,
    continuation_to_ss_ := false,
    Acc_cells := [0], Fc_cells := [0],
    wcEval := fun _ => [10], dwcEval := fun _ => [2],
    diffusionOp := fun _ => ⟨[0], [0]⟩, niter_ := 0 }

/-- A single-cell solution iterate with pressure 3. -/
def upEx : CompositeVector := ⟨[3], []⟩

/-- The spec scenario's solution increment: du_cell = 1e-3. -/
def duEx : CompositeVector := ⟨[1/1000], []⟩

/-- A componentwise-larger increment than `duEx`. -/
def duEx' : CompositeVector := ⟨[2/1000], []⟩

/-- The continuation-mode kernel state: continuation active, nominal
tolerances atol0 = 1e-5 and rtol0 = 1e-4, next time 9. -/
def Rcont : Richards :=
  { Rex with continuation_to_ss_ := true,
             S_inter := { Rex.S_inter with time := 8 },
             S_next := { snap1 with time := 9 } }

/-- A kernel state whose two snapshots carry the same time stamp 1, so the
step h between them is 0, not strictly positive. -/
def Rsame : Richards :=
  { Rex with S_inter := { Rex.S_inter with time := 1 } }

lemma foldl_max_zero_of_all_zero {l : List ℚ} (h0 : ∀ x ∈ l, x = 0) :
    l.foldl max 0 = 0 :=
  le_antisymm (foldl_max_le l 0 0 le_rfl (fun x hx => le_of_eq (h0 x hx))) (le_foldl_max l 0)

/-- C1: the error norm is the maximum over cells of
|h du_c| / (atol + rtol |wc_c|), faces never contribute, and the spec's
single-cell scenario evaluates to 100/101. -/
theorem c1_enorm_is_cellwise_max (R : Richards) (u du : CompositeVector) (fs : List ℚ) :
    (R.enorm u du).2 =
      specCellwiseErrorNorm (R.S_next.time - R.S_inter.time) (enormAtol R) (enormRtol R)
        du.cells (R.wcEval R.S_next.pressure.cells) ∧
    (R.enorm u { du with faces := fs }).2 = (R.enorm u du).2 ∧
    (Rex.enorm upEx duEx).2 = 100 / 101 := by
  refine ⟨?_, rfl, ?_⟩
  · simp only [Richards.enorm, specCellwiseErrorNorm, updateWaterContent]
    exact max_eq_right (le_foldl_max _ 0)
  · have h1 : |(1/1000 : ℚ)| = 1/1000 := abs_of_pos (by norm_num)
    norm_num [Richards.enorm, enormAtol, enormRtol, updateWaterContent, Rex, upEx, duEx,
      snap1, max_def, h1]

/-- C3 amended: in continuation mode the tolerances are recomputed as
atol0 + 1e5 atol0 / (1 + t_new) (the relaxation is proportional to the
nominal tolerance, not a fixed additive constant). -/
theorem c3_continuation_tolerances (R : Richards) (u du : CompositeVector)
    (hc : R.continuation_to_ss_ = true) :
    (R.enorm u du).1.atol_ = R.atol0_ + 100000 * R.atol0_ / (1 + R.S_next.time) ∧
    (R.enorm u du).1.rtol_ = R.rtol0_ + 100000 * R.rtol0_ / (1 + R.S_next.time) := by
  simp [Richards.enorm, enormAtol, enormRtol, hc]

theorem c3_witness :
    (Rcont.enorm upEx duEx).1.atol_ =
      Rcont.atol0_ + 100000 * Rcont.atol0_ / (1 + Rcont.S_next.time) ∧
    (Rcont.enorm upEx duEx).1.rtol_ =
      Rcont.rtol0_ + 100000 * Rcont.rtol0_ / (1 + Rcont.S_next.time) :=
  c3_continuation_tolerances Rcont upEx duEx rfl

/-- C3 counterexample: with atol0 = 1e-5 and t_new = 9 the recomputed
tolerance is not atol0 + 1e5/(1+t_new). -/
theorem c3_counterexample :
    (Rcont.enorm upEx duEx).1.atol_ ≠ Rcont.atol0_ + 100000 / (1 + Rcont.S_next.time) := by
  norm_num [Richards.enorm, enormAtol, enormRtol, updateWaterContent, Rcont, Rex, snap1]

/-- C4 counterexample: at atol0 = 1e-5, t_new = 9 the recomputed absolute
tolerance is below 1, nowhere near 100.00001. -/
theorem c4_counterexample :
    (Rcont.enorm upEx duEx).1.atol_ < 1 ∧
    (Rcont.enorm upEx duEx).1.atol_ ≠ 10000001 / 100000 := by
  norm_num [Richards.enorm, enormAtol, enormRtol, updateWaterContent, Rcont, Rex, snap1]

/-- C4 amended: at atol0 = 1e-5, t_new = 9 the recomputed tolerance is
1e-5 + 1e5*1e-5/10 = 0.10001. -/
theorem c4_scenario_atol :
    (Rcont.enorm upEx duEx).1.atol_ = 1 / 100000 + 100000 * (1 / 100000) / (1 + 9) ∧
    (Rcont.enorm upEx duEx).1.atol_ = 10001 / 100000 := by
  norm_num [Richards.enorm, enormAtol, enormRtol, updateWaterContent, Rcont, Rex, snap1]

/-- C9: the constant EOS returns the same value everywhere, its declared
derivatives are zero, and they agree with centered differences of Density. -/
theorem c9_eos_constant_consistency (e : EOSConstant) (T p T' p' dT dp : ℚ) :
    e.Density T p = e.rho_ / e.M_ ∧
    e.Density T p = e.Density T' p' ∧
    e.DDensityDT T p = 0 ∧
    e.DDensityDp T p = 0 ∧
    (e.Density (T + dT) p - e.Density (T - dT) p) / (2 * dT) = e.DDensityDT T p ∧
    (e.Density T (p + dp) - e.Density T (p - dp)) / (2 * dp) = e.DDensityDp T p := by
  simp [EOSConstant.Density, EOSConstant.DDensityDT, EOSConstant.DDensityDp]

/-- C10: when the two snapshots report equal times, every per-cell error
term vanishes and the norm is 0 for every du. -/
theorem c10_enorm_zero_step (R : Richards) (u du : CompositeVector)
    (ht : R.S_next.time = R.S_inter.time) :
    (R.enorm u du).2 = 0 := by
  simp only [Richards.enorm, updateWaterContent, ht, sub_self, zero_mul, abs_zero, zero_div]
  rw [foldl_max_zero_of_all_zero, max_self]
  intro x hx
  rcases exists_of_mem_zipWith _ _ _ _ hx with ⟨a, _, b, _, rfl⟩
  rfl

theorem c10_witness : (Rsame.enorm upEx duEx).2 = 0 :=
  c10_enorm_zero_step Rsame upEx duEx rfl

/-- C5: each preconditioner update adds `dwc_dp[c]/h` to the accumulation
diagonal and `p[c] * dwc_dp[c]/h` to the right-hand-side correction, with
the derivative supplied by the field-evaluator system. -/
theorem c5_precon_accumulation (R : Richards) (t : ℚ) (up : CompositeVector) (h : ℚ) (c : ℕ)
    (hts : R.S_next.time = t)
    (hd : c < (R.dwcEval up.cells).length) (hp : c < up.cells.length)
    (ha : c < R.Acc_cells.length) (hf : c < R.Fc_cells.length) :
    (R.update_precon t up h).map (fun r => (r.Acc_cells.getD c 0, r.Fc_cells.getD c 0)) =
      some (R.Acc_cells.getD c 0 + (R.dwcEval up.cells).getD c 0 / h,
            R.Fc_cells.getD c 0 + up.cells.getD c 0 * (R.dwcEval up.cells).getD c 0 / h) := by
  unfold Richards.update_precon
  rw [if_pos hts]
  simp only [updateWCDeriv, solution_to_state, Option.map_some']
  rw [accumLoop_fst_getD h _ _ _ _ c hd hp ha hf, accumLoop_snd_getD h _ _ _ _ c hd hp ha hf]

theorem c5_witness :
    (Rex.update_precon 1 upEx 1).map (fun r => (r.Acc_cells.getD 0 0, r.Fc_cells.getD 0 0)) =
      some (Rex.Acc_cells.getD 0 0 + (Rex.dwcEval upEx.cells).getD 0 0 / 1,
            Rex.Fc_cells.getD 0 0 + upEx.cells.getD 0 0 * (Rex.dwcEval upEx.cells).getD 0 0 / 1) :=
  c5_precon_accumulation Rex 1 upEx 1 0 rfl (by simp [Rex]) (by simp [upEx])
    (by simp [Rex]) (by simp [Rex])

/-- C2 amended: a second update in direct succession adds the accumulation
contribution again, doubling it relative to a single call. -/
theorem c2_double_update_doubles (R : Richards) (t : ℚ) (up : CompositeVector) (h : ℚ) (c : ℕ)
    (hts : R.S_next.time = t)
    (hd : c < (R.dwcEval up.cells).length) (hp : c < up.cells.length)
    (ha : c < R.Acc_cells.length) (hf : c < R.Fc_cells.length) :
    ((R.update_precon t up h).bind (fun r => r.update_precon t up h)).map
        (fun r => (r.Acc_cells.getD c 0, r.Fc_cells.getD c 0)) =
      some (R.Acc_cells.getD c 0 + (R.dwcEval up.cells).getD c 0 / h
              + (R.dwcEval up.cells).getD c 0 / h,
            R.Fc_cells.getD c 0 + up.cells.getD c 0 * (R.dwcEval up.cells).getD c 0 / h
              + up.cells.getD c 0 * (R.dwcEval up.cells).getD c 0 / h) := by
  unfold Richards.update_precon
  rw [if_pos hts]
  simp only [updateWCDeriv, solution_to_state, Option.some_bind]
  rw [if_pos hts]
  simp only [updateWCDeriv, solution_to_state, Option.map_some']
  rw [accumLoop_fst_getD h _ _ _ _ c hd hp
        (by rw [accumLoop_fst_length]; exact ha) (by rw [accumLoop_snd_length]; exact hf),
      accumLoop_snd_getD h _ _ _ _ c hd hp
        (by rw [accumLoop_fst_length]; exact ha) (by rw [accumLoop_snd_length]; exact hf),
      accumLoop_fst_getD h _ _ _ _ c hd hp ha hf,
      accumLoop_snd_getD h _ _ _ _ c hd hp ha hf]

theorem c2_witness :
    ((Rex.update_precon 1 upEx 1).bind (fun r => r.update_precon 1 upEx 1)).map
        (fun r => (r.Acc_cells.getD 0 0, r.Fc_cells.getD 0 0)) =
      some (Rex.Acc_cells.getD 0 0 + (Rex.dwcEval upEx.cells).getD 0 0 / 1
              + (Rex.dwcEval upEx.cells).getD 0 0 / 1,
            Rex.Fc_cells.getD 0 0 + upEx.cells.getD 0 0 * (Rex.dwcEval upEx.cells).getD 0 0 / 1
              + upEx.cells.getD 0 0 * (Rex.dwcEval upEx.cells).getD 0 0 / 1) :=
  c2_double_update_doubles Rex 1 upEx 1 0 rfl (by simp [Rex]) (by simp [upEx])
    (by simp [Rex]) (by simp [Rex])

/-- C2 counterexample: two successive updates leave a different
accumulation diagonal than a single one (doubling, not idempotence). -/
theorem c2_counterexample :
    ((Rex.update_precon 1 upEx 1).bind (fun r => r.update_precon 1 upEx 1)).map
        Richards.Acc_cells ≠
      (Rex.update_precon 1 upEx 1).map Richards.Acc_cells := by
  norm_num [Richards.update_precon, accumLoop, updateWCDeriv, solution_to_state, Rex, upEx,
    snap1, Option.bind]

/-- C6 amended: the residual call fails fatally exactly on a time-stamp
mismatch; the sign of the step is not checked. -/
theorem c6_fatal_iff_timestamp_mismatch (R : Richards) (t_old t_new : ℚ)
    (u_old u_new g : CompositeVector) :
    R.fun' t_old t_new u_old u_new g = none ↔
      ¬ (R.S_inter.time = t_old ∧ R.S_next.time = t_new) := by
  unfold Richards.fun'
  split
  · rename_i hcond
    simp [hcond]
  · rename_i hcond
    simp [hcond]

/-- C6 counterexample: with matching time stamps but a zero step
(t_old = t_new = 1), the residual call succeeds instead of failing. -/
theorem c6_counterexample :
    (Rsame.fun' 1 1 upEx upEx ⟨[5], [7]⟩).isSome = true ∧ ¬ (0 : ℚ) < 1 - 1 := by
  constructor
  · norm_num [Richards.fun', Rsame, Rex, snap1]
  · norm_num

/-- C7: the residual is zeroed, then the diffusion term is added, then the
accumulation term, so the result is independent of the residual vector's
entry values. -/
theorem c7_residual_zeroed_then_accumulated (R : Richards) (t_old t_new : ℚ)
    (u_old u_new g g' : CompositeVector)
    (hc : g.cells.length = g'.cells.length) (hf : g.faces.length = g'.faces.length) :
    R.fun' t_old t_new u_old u_new g = R.fun' t_old t_new u_old u_new g' ∧
    (R.fun' t_old t_new u_old u_new g).map Prod.snd =
      (if R.S_inter.time = t_old ∧ R.S_next.time = t_new then
        some (addAccumulation (t_new - t_old)
          (updateWaterContent R.wcEval (solution_to_state u_new R.S_next)).water_content
          R.S_inter.water_content
          (applyDiffusion R.diffusionOp
            (updateWaterContent R.wcEval (solution_to_state u_new R.S_next)) (zeroedLike g)))
      else none) := by
  constructor
  · unfold Richards.fun' zeroedLike
    rw [hc, hf]
  · unfold Richards.fun'
    split <;> simp

theorem c7_witness :
    Rex.fun' 0 1 upEx upEx ⟨[5], [7]⟩ = Rex.fun' 0 1 upEx upEx ⟨[6], [8]⟩ ∧
    (Rex.fun' 0 1 upEx upEx ⟨[5], [7]⟩).map Prod.snd =
      (if Rex.S_inter.time = 0 ∧ Rex.S_next.time = 1 then
        some (addAccumulation (1 - 0)
          (updateWaterContent Rex.wcEval (solution_to_state upEx Rex.S_next)).water_content
          Rex.S_inter.water_content
          (applyDiffusion Rex.diffusionOp
            (updateWaterContent Rex.wcEval (solution_to_state upEx Rex.S_next))
            (zeroedLike ⟨[5], [7]⟩)))
      else none) :=
  c7_residual_zeroed_then_accumulated Rex 0 1 upEx upEx ⟨[5], [7]⟩ ⟨[6], [8]⟩ rfl rfl

/-- C8: the error norm is non-negative; it is 0 on the zero increment; and
it is monotone in the componentwise absolute value of the increment, with
nonnegative tolerances and fixed state. -/
theorem c8_enorm_nonneg_zero_monotone (R : Richards) (u du du' : CompositeVector)
    (hA : 0 ≤ enormAtol R) (hR : 0 ≤ enormRtol R)
    (hlen : du.cells.length = du'.cells.length)
    (hmono : ∀ c, c < du.cells.length → |du.cells.getD c 0| ≤ |du'.cells.getD c 0|) :
    0 ≤ (R.enorm u du).2 ∧
    ((∀ x ∈ du.cells, x = 0) → (R.enorm u du).2 = 0) ∧
    (R.enorm u du).2 ≤ (R.enorm u du').2 := by
  have hval : ∀ dv : CompositeVector, (R.enorm u dv).2 =
      max 0 ((List.zipWith (fun r w =>
        |((updateWaterContent R.wcEval R.S_next).time - R.S_inter.time) * r| /
          (enormAtol R + enormRtol R * |w|)) dv.cells
        (updateWaterContent R.wcEval R.S_next).water_content).foldl max 0) := fun dv => rfl
  refine ⟨?_, ?_, ?_⟩
  · rw [hval du]
    exact le_max_left 0 _
  · intro h0
    rw [hval du, foldl_max_zero_of_all_zero, max_self]
    intro x hx
    rcases exists_of_mem_zipWith _ _ _ _ hx with ⟨a, haa, b, _, rfl⟩
    simp [h0 a haa]
  · rw [hval du, hval du']
    exact max_le_max le_rfl
      (foldl_max_mono
        (forall2_enorm_terms _ _ _ hA hR du.cells du'.cells
          (updateWaterContent R.wcEval R.S_next).water_content hlen hmono) 0 0 le_rfl)

theorem c8_witness :
    0 ≤ (Rex.enorm upEx duEx).2 ∧
    ((∀ x ∈ duEx.cells, x = 0) → (Rex.enorm upEx duEx).2 = 0) ∧
    (Rex.enorm upEx duEx).2 ≤ (Rex.enorm upEx duEx').2 :=
  c8_enorm_nonneg_zero_monotone Rex upEx duEx duEx'
    (by norm_num [enormAtol, Rex]) (by norm_num [enormRtol, Rex]) rfl
    (by
      intro c hc
      have hc0 : c = 0 := by simpa [duEx, Nat.lt_one_iff] using hc
      subst hc0
      simp only [duEx, duEx', List.getD_cons_zero]
      rw [abs_of_pos (by norm_num), abs_of_pos (by norm_num)]
      norm_num)

end ATS
